import Mathlib

/-!
Verification of the inventory-management core (src/app.js).

The JavaScript source is shallowly embedded as follows:
* JS strings are `List Char` (called `Str`); JS string operations
  (trim, slice, toUpperCase, split on whitespace) are modelled on char
  lists.  JS `.length`/`.slice` count UTF-16 code units while we count
  characters; the difference is irrelevant to the properties below.
  `toUpperCase`/`toLowerCase` are modelled on the basic-latin letters
  (`Char.toUpper`/`Char.toLower`), matching JS for ASCII data.
* JS numbers are modelled exactly as `JSNum` (NaN, +-Infinity, or an
  arbitrary rational).  Binary floating-point rounding of literals is not
  modelled; all values appearing in the development are exactly
  representable.  `toFixed(2)` is modelled as exact rounding to a
  multiple of 1/100 with ties going up, per the ECMAScript `toFixed`
  specification ("if there are two such n, pick the larger n").
* JSON/JS values (the input of the sanitizer) are the inductive `JValue`.
  Property access on `null`/`undefined` throws a TypeError in JS (caught
  by the only caller, which then yields the empty collection); here
  `objGet` is totalized to return `undefined`, and every theorem that
  depends on element access carries an explicit objects-only hypothesis.
  Number-to-string conversion is exact for finite-decimal rationals and
  truncated otherwise (JS shortest-roundtrip printing is not modelled);
  no property below depends on it.
* `Date.now()` and `createId()` are passed in explicitly: `now : ℚ` for
  the clock and `ids : ℕ → Str` giving the id generated for the element
  at a given array position.
-/

namespace Inventory

/-- Strings of the embedded program: lists of characters. -/
abbrev Str := List Char

/-- Whitespace characters recognized by the embedding of trim / \s+. -/
def isSpaceChar (c : Char) : Bool :=
  c = ' ' || c = '\t' || c = '\n' || c = '\r'

/-- Maximal runs of non-whitespace characters, in order (helper for the
embedding of `trim().replace(/\s+/g, " ")`). -/
def wordsAux : Str → Str → List Str
  | [], acc => if acc = [] then [] else [acc.reverse]
  | c :: rest, acc =>
    if isSpaceChar c then
      if acc = [] then wordsAux rest [] else acc.reverse :: wordsAux rest []
    else wordsAux rest (c :: acc)

/-- Whitespace-separated words of a string. -/
def wordsWS (s : Str) : List Str := wordsAux s []

/-- Embedding of `normalizeText` from src/app.js: trim the ends and
collapse internal whitespace runs to single spaces.  (The JS version also
coerces its argument to a string first; that coercion is `textOf` below
and is applied at the call sites that need it.) -/
def normalizeText (s : Str) : Str := List.intercalate [' '] (wordsWS s)

/-- JavaScript numbers: NaN, the two infinities, or a finite value
(modelled as an exact rational). -/
inductive JSNum where
  | nan
  | inf
  | ninf
  | num (q : ℚ)
deriving DecidableEq, Repr

namespace JSNum

/-- Addition of JS numbers. -/
def add : JSNum → JSNum → JSNum
  | nan, _ => nan
  | _, nan => nan
  | inf, ninf => nan
  | ninf, inf => nan
  | inf, _ => inf
  | _, inf => inf
  | ninf, _ => ninf
  | _, ninf => ninf
  | num a, num b => num (a + b)

/-- Multiplication of JS numbers (negative zero is not modelled). -/
def mul : JSNum → JSNum → JSNum
  | nan, _ => nan
  | _, nan => nan
  | num a, num b => num (a * b)
  | inf, num b => if b = 0 then nan else if 0 < b then inf else ninf
  | ninf, num b => if b = 0 then nan else if 0 < b then ninf else inf
  | num a, inf => if a = 0 then nan else if 0 < a then inf else ninf
  | num a, ninf => if a = 0 then nan else if 0 < a then ninf else inf
  | inf, inf => inf
  | ninf, ninf => inf
  | inf, ninf => ninf
  | ninf, inf => ninf

/-- Strict comparison of JS numbers; any comparison with NaN is false. -/
def lt : JSNum → JSNum → Bool
  | nan, _ => false
  | _, nan => false
  | num a, num b => a < b
  | num _, inf => true
  | num _, ninf => false
  | inf, _ => false
  | ninf, ninf => false
  | ninf, _ => true

/-- Non-strict comparison of JS numbers; any comparison with NaN is false. -/
def le : JSNum → JSNum → Bool
  | nan, _ => false
  | _, nan => false
  | num a, num b => a ≤ b
  | num _, inf => true
  | num _, ninf => false
  | inf, inf => true
  | inf, _ => false
  | ninf, _ => true

/-- Negation of a JS number. -/
def neg : JSNum → JSNum
  | nan => nan
  | inf => ninf
  | ninf => inf
  | num q => num (-q)

/-- Embedding of `Number.isNaN`. -/
def isNaN : JSNum → Bool
  | nan => true
  | _ => false

/-- Embedding of `Number.isFinite`. -/
def isFinite : JSNum → Bool
  | num _ => true
  | _ => false

/-- Embedding of `Number.isInteger`. -/
def isInteger : JSNum → Bool
  | num q => q.den = 1
  | _ => false

/-- Truthiness of a JS number: NaN and 0 are falsy. -/
def truthy : JSNum → Bool
  | nan => false
  | num q => q != 0
  | _ => true

end JSNum

/-- Decimal digit test. -/
def isDigitChar (c : Char) : Bool := '0' ≤ c && c ≤ '9'

/-- Numeric value of a decimal digit character. -/
def digitVal (c : Char) : ℕ := c.toNat - 48

/-- Value of a big-endian digit list in the given base. -/
def digitsVal (base : ℕ) (dv : Char → ℕ) (l : Str) : ℕ :=
  l.foldl (fun a c => a * base + dv c) 0

/-- Hexadecimal digit test. -/
def isHexDigitChar (c : Char) : Bool :=
  isDigitChar c || ('a' ≤ c && c ≤ 'f') || ('A' ≤ c && c ≤ 'F')

/-- Numeric value of a hexadecimal digit character. -/
def hexVal (c : Char) : ℕ :=
  if isDigitChar c then c.toNat - 48
  else if 'a' ≤ c && c ≤ 'f' then c.toNat - 87
  else c.toNat - 55

/-- Drop whitespace on both ends of a string. -/
def trimWs (s : Str) : Str :=
  ((s.dropWhile isSpaceChar).reverse.dropWhile isSpaceChar).reverse

/-- Parse an optional exponent suffix of a JS numeric literal; `none`
means the remaining text does not form a valid literal. -/
def parseExpPart (base : ℚ) : Str → Option ℚ
  | [] => some base
  | c :: r =>
    if c = 'e' ∨ c = 'E' then
      match r with
      | '+' :: r2 =>
        if r2 ≠ [] ∧ r2.all isDigitChar then
          some (base * (10 : ℚ) ^ ((digitsVal 10 digitVal r2 : ℤ)))
        else none
      | '-' :: r2 =>
        if r2 ≠ [] ∧ r2.all isDigitChar then
          some (base * (10 : ℚ) ^ (-(digitsVal 10 digitVal r2 : ℤ)))
        else none
      | r2 =>
        if r2 ≠ [] ∧ r2.all isDigitChar then
          some (base * (10 : ℚ) ^ ((digitsVal 10 digitVal r2 : ℤ)))
        else none
    else none

/-- Parse an unsigned decimal JS numeric literal (digits, optional
fractional part, optional exponent). -/
def parseDecimal (s : Str) : Option ℚ :=
  let ip := s.takeWhile isDigitChar
  let rest := s.dropWhile isDigitChar
  match rest with
  | '.' :: r2 =>
    let fp := r2.takeWhile isDigitChar
    let r3 := r2.dropWhile isDigitChar
    if ip = [] ∧ fp = [] then none
    else
      parseExpPart
        ((digitsVal 10 digitVal ip : ℚ) +
          (digitsVal 10 digitVal fp : ℚ) / (10 : ℚ) ^ fp.length) r3
  | rest =>
    if ip = [] then none
    else parseExpPart (digitsVal 10 digitVal ip : ℚ) rest

/-- Parse an unsigned JS numeric literal, with radix prefixes (0x/0o/0b)
allowed only when no sign was present, per `Number(string)`. -/
def parseUnsignedNum (allowRadix : Bool) (t : Str) : JSNum :=
  if t = "Infinity".toList then .inf
  else
    match t with
    | '0' :: c :: r =>
      if allowRadix ∧ (c = 'x' ∨ c = 'X') then
        if r ≠ [] ∧ r.all isHexDigitChar then .num (digitsVal 16 hexVal r : ℚ)
        else .nan
      else if allowRadix ∧ (c = 'o' ∨ c = 'O') then
        if r ≠ [] ∧ r.all (fun d => '0' ≤ d && d ≤ '7') then
          .num (digitsVal 8 digitVal r : ℚ)
        else .nan
      else if allowRadix ∧ (c = 'b' ∨ c = 'B') then
        if r ≠ [] ∧ r.all (fun d => d = '0' || d = '1') then
          .num (digitsVal 2 digitVal r : ℚ)
        else .nan
      else
        match parseDecimal ('0' :: c :: r) with
        | some q => .num q
        | none => .nan
    | t =>
      match parseDecimal t with
      | some q => .num q
      | none => .nan

/-- Embedding of JS `Number(string)`. -/
def strToNum (s : Str) : JSNum :=
  match trimWs s with
  | [] => .num 0
  | '+' :: r => parseUnsignedNum false r
  | '-' :: r => (parseUnsignedNum false r).neg
  | t => parseUnsignedNum true t

/-- Decimal digits of the fractional part num/den, fuel-limited (exact
whenever den divides a power of ten within the fuel, which holds for all
values in this development). -/
def fracDigitsAux : ℕ → ℕ → ℕ → Str
  | _, _, 0 => []
  | n, den, fuel + 1 =>
    if n = 0 then []
    else
      Char.ofNat (48 + (n * 10) / den) :: fracDigitsAux ((n * 10) % den) den fuel

/-- Decimal representation of a non-negative rational. -/
def nonnegRatToStr (q : ℚ) : Str :=
  let n := q.num.toNat
  let d := q.den
  let frac := fracDigitsAux (n % d) d 40
  if frac = [] then Nat.toDigits 10 (n / d)
  else Nat.toDigits 10 (n / d) ++ '.' :: frac

/-- Embedding of JS number-to-string conversion. -/
def numToStr : JSNum → Str
  | .nan => "NaN".toList
  | .inf => "Infinity".toList
  | .ninf => "-Infinity".toList
  | .num q => if q < 0 then '-' :: nonnegRatToStr (-q) else nonnegRatToStr q

/-- JavaScript values as seen by the load path: everything JSON.parse can
produce, plus `undefined` (the result of a missing-property access) and
non-finite numbers (present in in-memory data). -/
inductive JValue where
  | jundefined
  | jnull
  | jbool (b : Bool)
  | jnum (n : JSNum)
  | jstr (s : Str)
  | jarr (elems : List JValue)
  | jobj (fields : List (Str × JValue))

mutual

/-- Embedding of JS `String(value)`. -/
def jsToString : JValue → Str
  | .jundefined => "undefined".toList
  | .jnull => "null".toList
  | .jbool true => "true".toList
  | .jbool false => "false".toList
  | .jnum n => numToStr n
  | .jstr s => s
  | .jarr l => arrJoin l
  | .jobj _ => "[object Object]".toList

/-- Embedding of `Array.prototype.join(",")` as used by array-to-string
coercion; null and undefined elements print as empty. -/
def arrJoin : List JValue → Str
  | [] => []
  | [v] =>
    match v with
    | .jnull => []
    | .jundefined => []
    | v => jsToString v
  | v :: rest =>
    (match v with
     | .jnull => []
     | .jundefined => []
     | v => jsToString v) ++ ',' :: arrJoin rest

end

/-- Embedding of JS `Number(value)` on our value domain. -/
def toNumber : JValue → JSNum
  | .jundefined => .nan
  | .jnull => .num 0
  | .jbool b => .num (if b then 1 else 0)
  | .jnum n => n
  | .jstr s => strToNum s
  | .jarr l => strToNum (arrJoin l)
  | .jobj _ => .nan

/-- Property access `value[key]`: on objects the last binding of the key
wins (as in JS object literals / JSON.parse); on anything else the result
is `undefined`.  (On `null`/`undefined` the real code throws instead; the
theorems that rely on element access assume object elements.) -/
def objGet : JValue → Str → JValue
  | .jobj fs, k =>
    (((fs.filter (fun p => p.1 == k)).getLast?).map (fun p => p.2)).getD .jundefined
  | _, _ => .jundefined

/-- String coercion used inside `normalizeText`: `String(value ?? "")`. -/
def textOf : JValue → Str
  | .jnull => []
  | .jundefined => []
  | v => jsToString v

end Inventory

namespace Inventory

/-- Field-length limits (LIMITS in src/app.js). -/
def limitName : ℕ := 80

/-- SKU length limit. -/
def limitSku : ℕ := 30

/-- Category length limit. -/
def limitCategory : ℕ := 40

/-- An inventory item as stored in the repository. -/
structure Item where
  id : Str
  name : Str
  sku : Str
  category : Str
  quantity : JSNum
  minStock : JSNum
  price : JSNum
  createdAt : JSNum
  updatedAt : JSNum
deriving DecidableEq, Repr

/-- Embedding of `sanitizeInteger`: coerce to a number; non-finite or
negative gives 0, otherwise floor. -/
def sanitizeInteger (v : JValue) : ℚ :=
  match toNumber v with
  | .num q => if q < 0 then 0 else (⌊q⌋ : ℚ)
  | _ => 0

/-- Exact model of `Number(x.toFixed(2))` for finite x: round to a
multiple of 1/100, ties up. -/
def roundTo2 (q : ℚ) : ℚ := (⌊q * 100 + 1 / 2⌋ : ℚ) / 100

/-- Embedding of `sanitizePrice`: coerce to a number; non-finite or
negative gives 0, otherwise round to 2 decimal places. -/
def sanitizePrice (v : JValue) : ℚ :=
  match toNumber v with
  | .num q => if q < 0 then 0 else roundTo2 q
  | _ => 0

/-- Truthy-or-default on JS numbers: embedding of the pattern
`Number(x) || now` used for the timestamps. -/
def orElseNum (n : JSNum) (d : ℚ) : JSNum :=
  if n.truthy then n else .num d

/-- Object key constants. -/
def keyId : Str := "id".toList

/-- Object key "name". -/
def keyName : Str := "name".toList

/-- Object key "sku". -/
def keySku : Str := "sku".toList

/-- Object key "category". -/
def keyCategory : Str := "category".toList

/-- Object key "quantity". -/
def keyQuantity : Str := "quantity".toList

/-- Object key "minStock". -/
def keyMinStock : Str := "minStock".toList

/-- Object key "price". -/
def keyPrice : Str := "price".toList

/-- Object key "createdAt". -/
def keyCreatedAt : Str := "createdAt".toList

/-- Object key "updatedAt". -/
def keyUpdatedAt : Str := "updatedAt".toList

/-- Coercion of one loaded element into an item: the body of the `.map`
in `sanitizeLoadedItems`.  `ids i` is the id `createId()` would produce
for the element at position `i`; `now` is `Date.now()`. -/
def sanitizeOne (ids : ℕ → Str) (i : ℕ) (now : ℚ) (e : JValue) : Item :=
  { id :=
      match objGet e keyId with
      | .jnull => ids i
      | .jundefined => ids i
      | v => jsToString v,
    name := (normalizeText (textOf (objGet e keyName))).take limitName,
    sku := ((normalizeText (textOf (objGet e keySku))).map Char.toUpper).take limitSku,
    category := (normalizeText (textOf (objGet e keyCategory))).take limitCategory,
    quantity := .num (sanitizeInteger (objGet e keyQuantity)),
    minStock := .num (sanitizeInteger (objGet e keyMinStock)),
    price := .num (sanitizePrice (objGet e keyPrice)),
    createdAt := orElseNum (toNumber (objGet e keyCreatedAt)) now,
    updatedAt := orElseNum (toNumber (objGet e keyUpdatedAt)) now }

/-- Filter of `sanitizeLoadedItems`: keep items whose name, sku and
category are non-empty (JS string truthiness). -/
def keepItem (it : Item) : Bool :=
  it.name != [] && it.sku != [] && it.category != []

/-- Position-indexed map step of `sanitizeLoadedItems`. -/
def sanMap (ids : ℕ → Str) (now : ℚ) : ℕ → List JValue → List Item
  | _, [] => []
  | i, e :: rest => sanitizeOne ids i now e :: sanMap ids now (i + 1) rest

/-- Embedding of `sanitizeLoadedItems`: non-arrays give the empty
collection; arrays are coerced elementwise and unrepairable elements are
dropped. -/
def sanitizeLoadedItems (ids : ℕ → Str) (now : ℚ) (v : JValue) : List Item :=
  match v with
  | .jarr l => (sanMap ids now 0 l).filter keepItem
  | _ => []

/-- An item as the in-memory JS object it is (used to feed the sanitizer
its own output, which is what idempotence is about). -/
def memEncode (it : Item) : JValue :=
  .jobj
    [(keyId, .jstr it.id), (keyName, .jstr it.name), (keySku, .jstr it.sku),
     (keyCategory, .jstr it.category), (keyQuantity, .jnum it.quantity),
     (keyMinStock, .jnum it.minStock), (keyPrice, .jnum it.price),
     (keyCreatedAt, .jnum it.createdAt), (keyUpdatedAt, .jnum it.updatedAt)]

/-- JSON.stringify/parse round trip of a single number: NaN and the
infinities become null, finite values survive exactly. -/
def jsonNum (n : JSNum) : JValue :=
  match n with
  | .num q => .jnum (.num q)
  | _ => .jnull

/-- An item as read back from its persisted JSON form (embedding of
`JSON.stringify` on items followed by `JSON.parse`). -/
def saveEncode (it : Item) : JValue :=
  .jobj
    [(keyId, .jstr it.id), (keyName, .jstr it.name), (keySku, .jstr it.sku),
     (keyCategory, .jstr it.category), (keyQuantity, jsonNum it.quantity),
     (keyMinStock, jsonNum it.minStock), (keyPrice, jsonNum it.price),
     (keyCreatedAt, jsonNum it.createdAt), (keyUpdatedAt, jsonNum it.updatedAt)]

/-- Persisted form of the whole collection (`saveItems` writes this blob;
`loadItems` parses it back). -/
def stringifyItems (items : List Item) : JValue :=
  .jarr (items.map saveEncode)

/-- A candidate payload as assembled by `getFormPayload`. -/
structure Payload where
  name : Str
  sku : Str
  category : Str
  quantity : JSNum
  minStock : JSNum
  price : JSNum
deriving DecidableEq, Repr

/-- Raw values of the six form fields. -/
structure FormFields where
  name : Str
  sku : Str
  category : Str
  quantity : Str
  minStock : Str
  price : Str
deriving DecidableEq, Repr

/-- Embedding of `getFormPayload`: normalize the text fields, upper-case
the sku, and coerce the numeric fields with `Number`. -/
def getFormPayload (f : FormFields) : Payload :=
  { name := normalizeText f.name,
    sku := (normalizeText f.sku).map Char.toUpper,
    category := normalizeText f.category,
    quantity := strToNum f.quantity,
    minStock := strToNum f.minStock,
    price := strToNum f.price }

/-- Validation message: required fields. -/
def msgRequired : Str := "Completa todos los campos requeridos.".toList

/-- Validation message: name too long. -/
def msgNameLen : Str := "El nombre no puede exceder 80 caracteres.".toList

/-- Validation message: sku too long. -/
def msgSkuLen : Str := "El SKU no puede exceder 30 caracteres.".toList

/-- Validation message: category too long. -/
def msgCategoryLen : Str := "La categoria no puede exceder 40 caracteres.".toList

/-- Validation message: non-numeric values. -/
def msgNumeric : Str := "Cantidad, stock minimo y precio deben ser valores numericos.".toList

/-- Validation message: non-integer quantity or minStock. -/
def msgInteger : Str := "Cantidad y stock minimo deben ser numeros enteros.".toList

/-- Validation message: negative values. -/
def msgNegative : Str := "No se permiten valores negativos.".toList

/-- Duplicate-SKU message shown by `handleSubmit`. -/
def msgDuplicate : Str := "El SKU ya existe. Usa un valor diferente.".toList

/-- Embedding of `validatePayload`: the fail-fast rule chain, returning
the first failing message or the empty string. -/
def validatePayload (p : Payload) : Str :=
  if p.name = [] ∨ p.sku = [] ∨ p.category = [] then msgRequired
  else if limitName < p.name.length then msgNameLen
  else if limitSku < p.sku.length then msgSkuLen
  else if limitCategory < p.category.length then msgCategoryLen
  else if p.quantity.isNaN || p.minStock.isNaN || p.price.isNaN then msgNumeric
  else if !p.quantity.isInteger || !p.minStock.isInteger then msgInteger
  else if JSNum.lt p.quantity (.num 0) || JSNum.lt p.minStock (.num 0)
      || JSNum.lt p.price (.num 0) then msgNegative
  else []

/-- Embedding of `isDuplicatedSku`: some item has the submitted sku and
an id different from the one being edited (`none` while creating). -/
def isDuplicatedSku (items : List Item) (sku : Str) (editingId : Option Str) : Bool :=
  items.any (fun it => it.sku == sku && some it.id != editingId)

/-- Embedding of `createItem`: append a new item with a fresh id and both
timestamps set to now; all payload fields are stored unchanged. -/
def createItem (items : List Item) (p : Payload) (freshId : Str) (now : ℚ) : List Item :=
  items ++
    [{ id := freshId, name := p.name, sku := p.sku, category := p.category,
       quantity := p.quantity, minStock := p.minStock, price := p.price,
       createdAt := .num now, updatedAt := .num now }]

/-- Replacement step of `updateItem` on the first item whose id matches. -/
def updateItemGo (eid : Str) (p : Payload) (now : ℚ) : List Item → List Item
  | [] => []
  | it :: rest =>
    if it.id = eid then
      { it with
        name := p.name, sku := p.sku, category := p.category,
        quantity := p.quantity, minStock := p.minStock, price := p.price,
        updatedAt := .num now } :: rest
    else it :: updateItemGo eid p now rest

/-- Embedding of `updateItem`: replace all payload fields of the item
being edited, keeping id and createdAt; no-op when nothing matches. -/
def updateItem (items : List Item) (editingId : Option Str) (p : Payload) (now : ℚ) :
    List Item :=
  match editingId with
  | none => items
  | some eid => updateItemGo eid p now items

/-- UI state relevant to a submit: the collection and the id being
edited, if any. -/
structure AppState where
  items : List Item
  editingId : Option Str
deriving DecidableEq, Repr

/-- Outcome of a submit: a displayed error message, or a successful
create or update. -/
inductive SubmitResult where
  | failed (msg : Str)
  | createdOk
  | updatedOk
deriving DecidableEq, Repr

/-- Embedding of the state-relevant core of `handleSubmit`: build the
payload, validate, check sku uniqueness, then create or update; on any
failure the state is untouched.  `freshId` is the id `createId()` would
produce, `now` is `Date.now()`. -/
def handleSubmit (st : AppState) (f : FormFields) (freshId : Str) (now : ℚ) :
    SubmitResult × AppState :=
  let p := getFormPayload f
  let err := validatePayload p
  if err ≠ [] then (.failed err, st)
  else if isDuplicatedSku st.items p.sku st.editingId then (.failed msgDuplicate, st)
  else
    match st.editingId with
    | some _ =>
      (.updatedOk, { items := updateItem st.items st.editingId p now, editingId := none })
    | none =>
      (.createdOk, { items := createItem st.items p freshId now, editingId := none })

/-- Embedding of `adjustQuantity`: find the first item with the given id;
if the adjusted quantity would be negative do nothing at all, otherwise
store it and refresh updatedAt. -/
def adjustQuantity (items : List Item) (id : Str) (diff : JSNum) (now : ℚ) : List Item :=
  match items with
  | [] => []
  | it :: rest =>
    if it.id = id then
      if JSNum.lt (JSNum.add it.quantity diff) (.num 0) then it :: rest
      else
        { it with quantity := JSNum.add it.quantity diff, updatedAt := .num now } :: rest
    else it :: adjustQuantity rest id diff now

/-- Derived item status. -/
inductive Status where
  | all
  | ok
  | low
deriving DecidableEq, Repr

/-- Embedding of `getItemStatus`. -/
def getItemStatus (it : Item) : Status :=
  if JSNum.le it.quantity it.minStock then .low else .ok

/-- Filter specification of the query engine; the search text is already
lower-cased by `handleSearch` before it is stored. -/
structure Filters where
  search : Str
  status : Status
deriving DecidableEq, Repr

/-- Embedding of `String.prototype.includes`: does `needle` occur as a
contiguous substring of the second argument? -/
def strIncludes (needle : Str) : Str → Bool
  | [] => needle.isPrefixOf []
  | c :: rest => needle.isPrefixOf (c :: rest) || strIncludes needle rest

/-- Search-and-status predicate of `getFilteredItems`. -/
def matchesFilters (fl : Filters) (it : Item) : Bool :=
  let q := fl.search
  let matchesSearch :=
    q == [] || strIncludes q (it.name.map Char.toLower)
      || strIncludes q (it.sku.map Char.toLower)
      || strIncludes q (it.category.map Char.toLower)
  if !matchesSearch then false
  else if fl.status = .all then true
  else fl.status = getItemStatus it

/-- Embedding of `getFilteredItems`: filter by search text and status,
then stable-sort by name under the locale comparison `cmp` (the model of
`localeCompare`, passed in as a parameter). -/
def getFilteredItems (cmp : Str → Str → ℤ) (fl : Filters) (items : List Item) :
    List Item :=
  (items.filter (matchesFilters fl)).mergeSort (fun a b => cmp a.name b.name ≤ 0)

/-- Embedding of the aggregate computations of `renderStats`: product
count, total units, low-stock count, and total inventory value. -/
def renderStatsData (items : List Item) : ℕ × JSNum × ℕ × JSNum :=
  (items.length,
   items.foldl (fun s it => JSNum.add s it.quantity) (.num 0),
   (items.filter (fun it => getItemStatus it = .low)).length,
   items.foldl (fun s it => JSNum.add s (JSNum.mul it.quantity it.price)) (.num 0))

end Inventory

namespace Inventory

/-- Specification-side sum of JS numbers (used to state the aggregator
contract independently of the code's fold direction). -/
def jsum (l : List JSNum) : JSNum := l.foldr JSNum.add (.num 0)

/-- Specification-side rendering of the validator rule chain of spec
section 4.1, in its stated order: required, then the three length rules,
then numeric, then integer, then non-negative. -/
def validationRules (p : Payload) : List (Bool × Str) :=
  [(decide (p.name = [] ∨ p.sku = [] ∨ p.category = []), msgRequired),
   (decide (limitName < p.name.length), msgNameLen),
   (decide (limitSku < p.sku.length), msgSkuLen),
   (decide (limitCategory < p.category.length), msgCategoryLen),
   (p.quantity.isNaN || p.minStock.isNaN || p.price.isNaN, msgNumeric),
   (!p.quantity.isInteger || !p.minStock.isInteger, msgInteger),
   (JSNum.lt p.quantity (.num 0) || JSNum.lt p.minStock (.num 0)
     || JSNum.lt p.price (.num 0), msgNegative)]

/-- Specification-side validator: the message of the first failing rule,
or the empty string when every rule passes. -/
def firstFailingMsg (p : Payload) : Str :=
  match (validationRules p).find? (fun r => r.1) with
  | some r => r.2
  | none => []

/-- The whole sanitized collection as the in-memory JS array it is. -/
def encodeItems (l : List Item) : JValue := .jarr (l.map memEncode)

/-- True unless the value is null or undefined (property access on the
latter two throws in JS). -/
def notNullish : JValue → Bool
  | .jnull => false
  | .jundefined => false
  | _ => true

/-- Element access during sanitization stays exception-free: every
element of an array input is neither null nor undefined. -/
def elemAccessOk : JValue → Bool
  | .jarr l => l.all notNullish
  | _ => true

/-- Decidable test that a finite JS number has at most two decimal
places. -/
def JSNum.twoDec : JSNum → Bool
  | .num q => decide ((q * 100).den = 1)
  | _ => false

/-- Structural facts true of every item the sanitizer can produce
(lengths within limits, upper-cased sku, non-negative integer counts,
two-decimal price, timestamps fixed under the truthy-or-now choice). -/
def SanShape (now : ℚ) (it : Item) : Prop :=
  it.name.length ≤ limitName ∧ it.sku.length ≤ limitSku ∧
  it.category.length ≤ limitCategory ∧ it.sku.map Char.toUpper = it.sku ∧
  (∃ n : ℕ, it.quantity = .num n) ∧ (∃ n : ℕ, it.minStock = .num n) ∧
  (∃ m : ℕ, it.price = .num ((m : ℚ) / 100)) ∧
  orElseNum it.createdAt now = it.createdAt ∧
  orElseNum it.updatedAt now = it.updatedAt

/-- Well-formedness of a persisted item under which the persistence
round trip is the identity: text fields are normalization fixed points,
non-empty and within limits, the sku is upper-cased, quantity and
minStock are non-negative integers, the price is a non-negative number
with at most two decimal places, and both timestamps are finite nonzero
numbers. -/
abbrev WfItem (it : Item) : Prop :=
  normalizeText it.name = it.name ∧ it.name ≠ [] ∧ it.name.length ≤ limitName ∧
  normalizeText it.sku = it.sku ∧ it.sku ≠ [] ∧ it.sku.length ≤ limitSku ∧
  it.sku.map Char.toUpper = it.sku ∧
  normalizeText it.category = it.category ∧ it.category ≠ [] ∧
  it.category.length ≤ limitCategory ∧
  it.quantity.isInteger = true ∧ JSNum.lt it.quantity (.num 0) = false ∧
  it.minStock.isInteger = true ∧ JSNum.lt it.minStock (.num 0) = false ∧
  it.price.twoDec = true ∧ JSNum.lt it.price (.num 0) = false ∧
  it.createdAt.isFinite = true ∧ it.createdAt.truthy = true ∧
  it.updatedAt.isFinite = true ∧ it.updatedAt.truthy = true

/-- Fixed id generator used by the concrete witnesses. -/
def genIds : ℕ → Str := fun _ => "ID".toList

/-- A name whose normalization is 82 characters long, so that truncation
to 80 characters cuts in the middle of the last word and leaves a
trailing space. -/
def longName : Str := List.replicate 79 'a' ++ " bb".toList

/-- Persisted blob on which sanitization is not idempotent. -/
def cexIdemInput : JValue :=
  .jarr [.jobj [(keyName, .jstr longName), (keySku, .jstr "s".toList),
                (keyCategory, .jstr "c".toList)]]

/-- Spec section 8 scenario form: Widget with price 9.999. -/
def widgetForm : FormFields :=
  { name := "Widget".toList, sku := "wd-1".toList, category := "Tools".toList,
    quantity := "5".toList, minStock := "10".toList, price := "9.999".toList }

/-- State after creating the Widget item from the empty collection. -/
def stWidget : AppState :=
  (handleSubmit { items := [], editingId := none } widgetForm "id-1".toList 5).2

/-- Form creating the item with sku "A-1". -/
def fA1 : FormFields :=
  { name := "Alpha".toList, sku := "A-1".toList, category := "Tools".toList,
    quantity := "1".toList, minStock := "2".toList, price := "3".toList }

/-- Form submitting sku "a-1" (lower case). -/
def fa1 : FormFields :=
  { name := "Beta".toList, sku := "a-1".toList, category := "Tools".toList,
    quantity := "1".toList, minStock := "2".toList, price := "3".toList }

/-- Form with an empty name and the duplicate sku "A-1". -/
def fBad : FormFields :=
  { name := [], sku := "A-1".toList, category := "Tools".toList,
    quantity := "1".toList, minStock := "2".toList, price := "3".toList }

/-- State after creating the "A-1" item from the empty collection. -/
def stA1 : AppState :=
  (handleSubmit { items := [], editingId := none } fA1 "id-A".toList 3).2

/-- Persisted element carrying the valid numeric timestamp 0. -/
def c8Input : JValue :=
  .jobj [(keyName, .jstr "A".toList), (keySku, .jstr "B".toList),
         (keyCategory, .jstr "C".toList), (keyCreatedAt, .jnum (.num 0)),
         (keyUpdatedAt, .jnum (.num 5))]

/-- Persisted blob for the sanitizer witnesses. -/
def boltInput : JValue :=
  .jarr [.jobj [(keyName, .jstr " Bolt  set ".toList), (keySku, .jstr "b1".toList),
                (keyCategory, .jstr "Hardware".toList), (keyQuantity, .jnum (.num (-3))),
                (keyMinStock, .jstr "x".toList), (keyPrice, .jnum (.num (-5 / 2)))]]

/-- The item produced by sanitizing `boltInput` (spec section 8 scenario). -/
def boltItem : Item :=
  { id := "ID".toList, name := "Bolt set".toList, sku := "B1".toList,
    category := "Hardware".toList, quantity := .num 0, minStock := .num 0,
    price := .num 0, createdAt := .num 7, updatedAt := .num 7 }

/-- A well-formed one-item collection for the round-trip witness. -/
def wfItems : List Item :=
  [{ id := "id-9".toList, name := "Widget".toList, sku := "WD-1".toList,
     category := "Tools".toList, quantity := .num 5, minStock := .num 10,
     price := .num 10, createdAt := .num 5, updatedAt := .num 5 }]

/-- Concrete total comparison (by length) standing in for localeCompare
in the query-engine witness. -/
def lenCmp (a b : Str) : ℤ := (a.length : ℤ) - (b.length : ℤ)

end Inventory

namespace Inventory

theorem jsAdd_comm (a b : JSNum) : JSNum.add a b = JSNum.add b a := by
  cases a <;> cases b <;> simp [JSNum.add] <;> ring

theorem jsAdd_assoc (a b c : JSNum) :
    JSNum.add (JSNum.add a b) c = JSNum.add a (JSNum.add b c) := by
  cases a <;> cases b <;> cases c <;> simp [JSNum.add] <;> ring

theorem orElseNum_idem (n : JSNum) (d : ℚ) :
    orElseNum (orElseNum n d) d = orElseNum n d := by
  unfold orElseNum
  by_cases h : n.truthy = true
  · simp [h]
  · simp [eq_false_of_ne_true h]

theorem char_toNat_ofNat_valid (n : ℕ) (h : n.isValidChar) :
    (Char.ofNat n).toNat = n := by
  rw [Char.ofNat, dif_pos h]
  simp [Char.ofNatAux, Char.toNat, UInt32.toNat, BitVec.ofNatLt]

theorem toUpper_idem (c : Char) : c.toUpper.toUpper = c.toUpper := by
  unfold Char.toUpper
  by_cases h : c.toNat ≥ 97 ∧ c.toNat ≤ 122
  · rw [if_pos h]
    have hv : (c.toNat - 32).isValidChar := by
      left
      omega
    rw [char_toNat_ofNat_valid _ hv]
    rw [if_neg (by omega)]
  · rw [if_neg h, if_neg h]

theorem map_toUpper_idem (l : Str) :
    (l.map Char.toUpper).map Char.toUpper = l.map Char.toUpper := by
  rw [List.map_map]
  exact List.map_congr_left (fun c _ => toUpper_idem c)

theorem floor_intCast_add_half (m : ℤ) : ⌊(m : ℚ) + 1 / 2⌋ = m := by
  rw [Int.floor_int_add]
  norm_num

theorem roundTo2_fix (m : ℤ) : roundTo2 ((m : ℚ) / 100) = (m : ℚ) / 100 := by
  unfold roundTo2
  have h : (m : ℚ) / 100 * 100 = (m : ℚ) := by
    field_simp
  rw [h, floor_intCast_add_half]

theorem sanitizeInteger_shape (v : JValue) : ∃ n : ℕ, sanitizeInteger v = (n : ℚ) := by
  unfold sanitizeInteger
  cases h : toNumber v with
  | num q =>
    by_cases hq : q < 0
    · exact ⟨0, by simp [hq]⟩
    · refine ⟨⌊q⌋.toNat, ?_⟩
      have h0 : (0 : ℤ) ≤ ⌊q⌋ := Int.floor_nonneg.mpr (le_of_not_lt hq)
      simp [hq]
      exact_mod_cast (Int.toNat_of_nonneg h0).symm
  | nan => exact ⟨0, rfl⟩
  | inf => exact ⟨0, rfl⟩
  | ninf => exact ⟨0, rfl⟩

theorem sanitizePrice_shape (v : JValue) :
    ∃ m : ℕ, sanitizePrice v = (m : ℚ) / 100 := by
  unfold sanitizePrice
  cases h : toNumber v with
  | num q =>
    by_cases hq : q < 0
    · exact ⟨0, by simp [hq]⟩
    · refine ⟨⌊q * 100 + 1 / 2⌋.toNat, ?_⟩
      have h0 : (0 : ℤ) ≤ ⌊q * 100 + 1 / 2⌋ := by
        apply Int.floor_nonneg.mpr
        have : (0 : ℚ) ≤ q := le_of_not_lt hq
        positivity
      simp [hq, roundTo2]
      congr 1
      have h0' : (0 : ℤ) ≤ ⌊q * 100 + 2⁻¹⌋ := by
        rw [show (2⁻¹ : ℚ) = 1 / 2 by norm_num]
        exact h0
      exact_mod_cast (Int.toNat_of_nonneg h0').symm
  | nan => exact ⟨0, by norm_num [sanitizePrice]⟩
  | inf => exact ⟨0, by norm_num [sanitizePrice]⟩
  | ninf => exact ⟨0, by norm_num [sanitizePrice]⟩

end Inventory

namespace Inventory

theorem sanShape_sanitizeOne (ids : ℕ → Str) (i : ℕ) (now : ℚ) (e : JValue) :
    SanShape now (sanitizeOne ids i now e) := by
  refine ⟨?_, ?_, ?_, ?_, ?_, ?_, ?_, ?_, ?_⟩
  · simpa [sanitizeOne, List.length_take] using Nat.min_le_left _ _
  · simpa [sanitizeOne, List.length_take] using Nat.min_le_left _ _
  · simpa [sanitizeOne, List.length_take] using Nat.min_le_left _ _
  · show (List.take _ (List.map _ _)).map _ = _
    rw [List.map_take, map_toUpper_idem]
    rfl
  · obtain ⟨n, hn⟩ := sanitizeInteger_shape (objGet e keyQuantity)
    exact ⟨n, by simp [sanitizeOne, hn]⟩
  · obtain ⟨n, hn⟩ := sanitizeInteger_shape (objGet e keyMinStock)
    exact ⟨n, by simp [sanitizeOne, hn]⟩
  · obtain ⟨m, hm⟩ := sanitizePrice_shape (objGet e keyPrice)
    exact ⟨m, by simp [sanitizeOne, hm]⟩
  · exact orElseNum_idem _ _
  · exact orElseNum_idem _ _

theorem sanitizeOne_memEncode (ids : ℕ → Str) (i : ℕ) (now : ℚ) (it : Item)
    (hsh : SanShape now it)
    (hname : normalizeText it.name = it.name)
    (hsku : normalizeText it.sku = it.sku)
    (hcat : normalizeText it.category = it.category) :
    sanitizeOne ids i now (memEncode it) = it := by
  obtain ⟨hlen, hslen, hclen, hup, ⟨nq, hq⟩, ⟨nm, hm⟩, ⟨mp, hp⟩, hca, hua⟩ := hsh
  show Item.mk _ _ _ _ _ _ _ _ _ = it
  have hid : (match objGet (memEncode it) keyId with
      | .jnull => ids i
      | .jundefined => ids i
      | v => jsToString v) = it.id := rfl
  have hnm : (normalizeText (textOf (objGet (memEncode it) keyName))).take limitName
      = it.name := by
    show (normalizeText it.name).take limitName = it.name
    rw [hname]
    exact List.take_of_length_le hlen
  have hsk : ((normalizeText (textOf (objGet (memEncode it) keySku))).map
      Char.toUpper).take limitSku = it.sku := by
    show ((normalizeText it.sku).map Char.toUpper).take limitSku = it.sku
    rw [hsku, hup]
    exact List.take_of_length_le hslen
  have hct : (normalizeText (textOf (objGet (memEncode it) keyCategory))).take
      limitCategory = it.category := by
    show (normalizeText it.category).take limitCategory = it.category
    rw [hcat]
    exact List.take_of_length_le hclen
  have hqv : JSNum.num (sanitizeInteger (objGet (memEncode it) keyQuantity))
      = it.quantity := by
    show JSNum.num (sanitizeInteger (.jnum it.quantity)) = it.quantity
    rw [hq]
    show JSNum.num (if ((nq : ℕ) : ℚ) < 0 then 0 else (⌊((nq : ℕ) : ℚ)⌋ : ℚ)) = _
    rw [if_neg (not_lt.mpr (by positivity)), Int.floor_natCast]
    norm_num
  have hmv : JSNum.num (sanitizeInteger (objGet (memEncode it) keyMinStock))
      = it.minStock := by
    show JSNum.num (sanitizeInteger (.jnum it.minStock)) = it.minStock
    rw [hm]
    show JSNum.num (if ((nm : ℕ) : ℚ) < 0 then 0 else (⌊((nm : ℕ) : ℚ)⌋ : ℚ)) = _
    rw [if_neg (not_lt.mpr (by positivity)), Int.floor_natCast]
    norm_num
  have hpv : JSNum.num (sanitizePrice (objGet (memEncode it) keyPrice))
      = it.price := by
    show JSNum.num (sanitizePrice (.jnum it.price)) = it.price
    rw [hp]
    show JSNum.num (if ((mp : ℕ) : ℚ) / 100 < 0 then 0
      else roundTo2 (((mp : ℕ) : ℚ) / 100)) = _
    rw [if_neg (not_lt.mpr (by positivity))]
    rw [show (((mp : ℕ) : ℚ) / 100) = (((mp : ℕ) : ℤ) : ℚ) / 100 by push_cast; ring]
    rw [roundTo2_fix]
  have hcav : orElseNum (toNumber (objGet (memEncode it) keyCreatedAt)) now
      = it.createdAt := by
    show orElseNum it.createdAt now = it.createdAt
    exact hca
  have huav : orElseNum (toNumber (objGet (memEncode it) keyUpdatedAt)) now
      = it.updatedAt := by
    show orElseNum it.updatedAt now = it.updatedAt
    exact hua
  cases it
  simp_all [sanitizeOne]

end Inventory

namespace Inventory

theorem sanitizeOne_saveEncode (ids : ℕ → Str) (i : ℕ) (now : ℚ) (it : Item)
    (hwf : WfItem it) :
    sanitizeOne ids i now (saveEncode it) = it := by
  obtain ⟨hname, -, hlen, hsku, -, hslen, hup, hcat, -, hclen,
    hqint, hqneg, hmint, hmneg, hptwo, hpneg, hcfin, hctru, hufin, hutru⟩ := hwf
  show Item.mk _ _ _ _ _ _ _ _ _ = it
  obtain ⟨cq, hcq⟩ : ∃ q : ℚ, it.createdAt = .num q := by
    cases h : it.createdAt <;> simp_all [JSNum.isFinite]
  obtain ⟨uq, huq⟩ : ∃ q : ℚ, it.updatedAt = .num q := by
    cases h : it.updatedAt <;> simp_all [JSNum.isFinite]
  obtain ⟨qq, hqq⟩ : ∃ q : ℚ, it.quantity = .num q := by
    cases h : it.quantity <;> simp_all [JSNum.isInteger]
  obtain ⟨mq, hmq⟩ : ∃ q : ℚ, it.minStock = .num q := by
    cases h : it.minStock <;> simp_all [JSNum.isInteger]
  obtain ⟨pq, hpq⟩ : ∃ q : ℚ, it.price = .num q := by
    cases h : it.price <;> simp_all [JSNum.twoDec]
  have hid : (match objGet (saveEncode it) keyId with
      | .jnull => ids i
      | .jundefined => ids i
      | v => jsToString v) = it.id := rfl
  have hnm : (normalizeText (textOf (objGet (saveEncode it) keyName))).take limitName
      = it.name := by
    show (normalizeText it.name).take limitName = it.name
    rw [hname]
    exact List.take_of_length_le hlen
  have hsk : ((normalizeText (textOf (objGet (saveEncode it) keySku))).map
      Char.toUpper).take limitSku = it.sku := by
    show ((normalizeText it.sku).map Char.toUpper).take limitSku = it.sku
    rw [hsku, hup]
    exact List.take_of_length_le hslen
  have hct : (normalizeText (textOf (objGet (saveEncode it) keyCategory))).take
      limitCategory = it.category := by
    show (normalizeText it.category).take limitCategory = it.category
    rw [hcat]
    exact List.take_of_length_le hclen
  have hqv : JSNum.num (sanitizeInteger (objGet (saveEncode it) keyQuantity))
      = it.quantity := by
    show JSNum.num (sanitizeInteger (jsonNum it.quantity)) = it.quantity
    rw [hqq] at hqint hqneg ⊢
    show JSNum.num (if qq < 0 then 0 else (⌊qq⌋ : ℚ)) = JSNum.num qq
    have hd : (qq.num : ℚ) = qq := by
      exact Rat.coe_int_num_of_den_eq_one (by simpa [JSNum.isInteger] using hqint)
    have hlt : ¬qq < 0 := by simpa [JSNum.lt] using hqneg
    rw [if_neg hlt, ← hd, Int.floor_intCast]
  have hmv : JSNum.num (sanitizeInteger (objGet (saveEncode it) keyMinStock))
      = it.minStock := by
    show JSNum.num (sanitizeInteger (jsonNum it.minStock)) = it.minStock
    rw [hmq] at hmint hmneg ⊢
    show JSNum.num (if mq < 0 then 0 else (⌊mq⌋ : ℚ)) = JSNum.num mq
    have hd : (mq.num : ℚ) = mq := by
      exact Rat.coe_int_num_of_den_eq_one (by simpa [JSNum.isInteger] using hmint)
    have hlt : ¬mq < 0 := by simpa [JSNum.lt] using hmneg
    rw [if_neg hlt, ← hd, Int.floor_intCast]
  have hpv : JSNum.num (sanitizePrice (objGet (saveEncode it) keyPrice))
      = it.price := by
    show JSNum.num (sanitizePrice (jsonNum it.price)) = it.price
    rw [hpq] at hptwo hpneg ⊢
    show JSNum.num (if pq < 0 then 0 else roundTo2 pq) = JSNum.num pq
    have hlt : ¬pq < 0 := by simpa [JSNum.lt] using hpneg
    have hd : ((pq * 100).num : ℚ) = pq * 100 :=
      Rat.coe_int_num_of_den_eq_one (by simpa [JSNum.twoDec] using hptwo)
    have : roundTo2 pq = pq := by
      have h2 : pq = ((pq * 100).num : ℚ) / 100 := by
        rw [hd]
        ring
      rw [h2, roundTo2_fix]
    rw [if_neg hlt, this]
  have hcav : orElseNum (toNumber (objGet (saveEncode it) keyCreatedAt)) now
      = it.createdAt := by
    show orElseNum (toNumber (jsonNum it.createdAt)) now = it.createdAt
    rw [hcq] at hctru ⊢
    show orElseNum (JSNum.num cq) now = JSNum.num cq
    unfold orElseNum
    rw [if_pos hctru]
  have huav : orElseNum (toNumber (objGet (saveEncode it) keyUpdatedAt)) now
      = it.updatedAt := by
    show orElseNum (toNumber (jsonNum it.updatedAt)) now = it.updatedAt
    rw [huq] at hutru ⊢
    show orElseNum (JSNum.num uq) now = JSNum.num uq
    unfold orElseNum
    rw [if_pos hutru]
  cases it
  simp_all [sanitizeOne]

theorem sanMap_mem_shape (ids : ℕ → Str) (now : ℚ) :
    ∀ (l : List JValue) (i : ℕ) (it : Item), it ∈ sanMap ids now i l → SanShape now it := by
  intro l
  induction l with
  | nil => intro i it h; simp [sanMap] at h
  | cons e rest ih =>
    intro i it h
    rw [sanMap] at h
    rcases List.mem_cons.mp h with h1 | h2
    · rw [h1]; exact sanShape_sanitizeOne ids i now e
    · exact ih (i + 1) it h2

theorem sanMap_roundtrip (ids' : ℕ → Str) (now : ℚ) (enc : Item → JValue) :
    ∀ (ys : List Item) (j : ℕ),
      (∀ it ∈ ys, ∀ k, sanitizeOne ids' k now (enc it) = it) →
      sanMap ids' now j (ys.map enc) = ys := by
  intro ys
  induction ys with
  | nil => intro j _; rfl
  | cons it rest ih =>
    intro j h
    rw [List.map_cons, sanMap, h it (List.mem_cons_self it rest) j,
      ih (j + 1) (fun x hx k => h x (List.mem_cons_of_mem it hx) k)]

end Inventory

namespace Inventory

/-- C2 (counterexample): sanitization is not idempotent as claimed.  The
element whose normalized name is 82 characters long is truncated to 80
characters ending in a space; re-sanitizing trims that space, so the
second pass changes the data even though clock and id generator are held
fixed. -/
theorem c2_sanitize_idempotent_cex :
    sanitizeLoadedItems genIds 7 (encodeItems (sanitizeLoadedItems genIds 7 cexIdemInput))
      ≠ sanitizeLoadedItems genIds 7 cexIdemInput := by
  decide

/-- C2 (amended): sanitization is idempotent — with clock and id
generator held fixed, and even across different id generators, since the
second pass never consults one — provided no element access throws and
every text field of the first pass's output is a fixed point of
normalization (which only fails when truncation to the length limit cuts
a word and leaves a trailing space). -/
theorem c2_sanitize_idempotent_amended (ids ids' : ℕ → Str) (now : ℚ) (v : JValue)
    (hacc : elemAccessOk v = true)
    (hfix : ∀ it ∈ sanitizeLoadedItems ids now v,
      normalizeText it.name = it.name ∧ normalizeText it.sku = it.sku ∧
        normalizeText it.category = it.category) :
    sanitizeLoadedItems ids' now (encodeItems (sanitizeLoadedItems ids now v)) =
      sanitizeLoadedItems ids now v := by
  cases v with
  | jarr l =>
    have hys : ∀ it ∈ sanitizeLoadedItems ids now (.jarr l), ∀ k,
        sanitizeOne ids' k now (memEncode it) = it := by
      intro it hit k
      have hit' : it ∈ (sanMap ids now 0 l).filter keepItem := hit
      have hmem : it ∈ sanMap ids now 0 l := (List.mem_filter.mp hit').1
      exact sanitizeOne_memEncode ids' k now it (sanMap_mem_shape ids now l 0 it hmem)
        (hfix it hit).1 (hfix it hit).2.1 (hfix it hit).2.2
    have hkeep : ∀ it ∈ sanitizeLoadedItems ids now (.jarr l), keepItem it = true := by
      intro it hit
      have hit' : it ∈ (sanMap ids now 0 l).filter keepItem := hit
      exact (List.mem_filter.mp hit').2
    show (sanMap ids' now 0 ((sanitizeLoadedItems ids now (.jarr l)).map memEncode)).filter
        keepItem = sanitizeLoadedItems ids now (.jarr l)
    rw [sanMap_roundtrip ids' now memEncode _ 0 hys]
    exact List.filter_eq_self.mpr hkeep
  | jundefined => rfl
  | jnull => rfl
  | jbool b => rfl
  | jnum n => rfl
  | jstr s => rfl
  | jobj fs => rfl

/-- C2 (witness): the amended idempotence theorem applied to the
concrete spec-scenario blob. -/
theorem c2_sanitize_idempotent_witness :
    sanitizeLoadedItems genIds 7 (encodeItems (sanitizeLoadedItems genIds 7 boltInput))
      = sanitizeLoadedItems genIds 7 boltInput :=
  c2_sanitize_idempotent_amended genIds genIds 7 boltInput (by decide) (by decide)

end Inventory

namespace Inventory

unseal Rat.mul Rat.add Rat.sub Rat.inv in
/-- C6 (counterexample): the persistence round trip is not the identity
on collections reachable through the Repository's operations.  The
collection created by one validator-clean create (Widget with price
9.999) comes back with price 10 after stringify + sanitize, because
create stores the price unrounded while the load path rounds it. -/
theorem c6_roundtrip_cex :
    sanitizeLoadedItems genIds 9 (stringifyItems stWidget.items) ≠ stWidget.items := by
  decide

/-- C6 (amended): the persistence round trip is the identity on every
collection of well-formed items: normalized non-empty text fields within
the length limits, upper-cased sku, non-negative integer quantity and
minStock, non-negative price with at most two decimal places, and finite
nonzero timestamps.  Collections reachable through create can violate
the price condition (create stores the submitted price unrounded), and
for those the round trip rounds the price. -/
theorem c6_roundtrip_amended (ids : ℕ → Str) (now : ℚ) (items : List Item)
    (h : ∀ it ∈ items, WfItem it) :
    sanitizeLoadedItems ids now (stringifyItems items) = items := by
  have hys : ∀ it ∈ items, ∀ k, sanitizeOne ids k now (saveEncode it) = it :=
    fun it hit k => sanitizeOne_saveEncode ids k now it (h it hit)
  show (sanMap ids now 0 (items.map saveEncode)).filter keepItem = items
  rw [sanMap_roundtrip ids now saveEncode items 0 hys]
  apply List.filter_eq_self.mpr
  intro it hit
  obtain ⟨-, h1, -, -, h2, -, -, -, h3, -⟩ := h it hit
  simp [keepItem, h1, h2, h3]

unseal Rat.mul Rat.add Rat.sub Rat.inv in
/-- C6 (witness): the amended round-trip theorem applied to a concrete
well-formed one-item collection. -/
theorem c6_roundtrip_witness :
    sanitizeLoadedItems genIds 9 (stringifyItems wfItems) = wfItems :=
  c6_roundtrip_amended genIds 9 wfItems (by decide)

end Inventory

namespace Inventory

unseal Rat.mul Rat.add Rat.sub Rat.inv in
/-- C1 (counterexample): creating from the validator-clean Widget
payload with price 9.999 succeeds but stores price 9.999 unrounded, not
10.00 as claimed — `createItem` copies the payload's price unchanged, so
the two-decimal invariant does not hold for items stored by create. -/
theorem c1_price_cex :
    validatePayload (getFormPayload widgetForm) = [] ∧
    (handleSubmit { items := [], editingId := none } widgetForm "id-1".toList 5).1
      = .createdOk ∧
    stWidget.items.map Item.price = [.num (9999 / 1000)] ∧
    JSNum.num (9999 / 1000) ≠ .num 10 := by
  refine ⟨by decide, by decide, by decide, by decide⟩

unseal Rat.mul Rat.add Rat.sub Rat.inv in
/-- C1 (amended): every item produced by the Sanitizer has a
non-negative price with at most two decimal places; `createItem` stores
the payload's price unchanged (so a created 9.999 stays 9.999); and the
rounding claimed for the scenario happens on the load path, where
sanitizing the stored 9.999 yields 10. -/
theorem c1_price_amended :
    (∀ (ids : ℕ → Str) (now : ℚ) (v : JValue) (it : Item),
      it ∈ sanitizeLoadedItems ids now v → ∃ m : ℕ, it.price = .num ((m : ℚ) / 100)) ∧
    (∀ (items : List Item) (p : Payload) (fid : Str) (now : ℚ),
      createItem items p fid now = items ++
        [{ id := fid, name := p.name, sku := p.sku, category := p.category,
           quantity := p.quantity, minStock := p.minStock, price := p.price,
           createdAt := .num now, updatedAt := .num now }]) ∧
    sanitizePrice (.jnum (.num (9999 / 1000))) = 10 := by
  refine ⟨?_, fun _ _ _ _ => rfl, by decide⟩
  intro ids now v it hit
  cases v with
  | jarr l =>
    have hit' : it ∈ (sanMap ids now 0 l).filter keepItem := hit
    have hmem : it ∈ sanMap ids now 0 l := (List.mem_filter.mp hit').1
    obtain ⟨-, -, -, -, -, -, hp, -, -⟩ := sanMap_mem_shape ids now l 0 it hmem
    exact hp
  | jundefined => simp [sanitizeLoadedItems] at hit
  | jnull => simp [sanitizeLoadedItems] at hit
  | jbool b => simp [sanitizeLoadedItems] at hit
  | jnum n => simp [sanitizeLoadedItems] at hit
  | jstr s => simp [sanitizeLoadedItems] at hit
  | jobj fs => simp [sanitizeLoadedItems] at hit

unseal Rat.mul Rat.add Rat.sub Rat.inv in
/-- C1 (witness): the sanitizer price invariant applied at the concrete
Bolt blob. -/
theorem c1_price_witness : ∃ m : ℕ, boltItem.price = .num ((m : ℚ) / 100) :=
  c1_price_amended.1 genIds 7 boltInput boltItem (by decide)

end Inventory

namespace Inventory

/-- C3 (counterexample): with the item "A-1" stored and a payload that
has the duplicate sku "A-1" but an empty name, submit fails with the
required-fields message, not the duplicate-SKU message — validation runs
before the uniqueness check. -/
theorem c3_duplicate_sku_cex :
    (∃ it ∈ stA1.items, it.sku = (getFormPayload fBad).sku ∧ some it.id ≠ stA1.editingId) ∧
    (handleSubmit stA1 fBad "id-B".toList 4).1 = .failed msgRequired ∧
    msgRequired ≠ msgDuplicate := by
  refine ⟨by decide, by decide, by decide⟩

/-- C3 (amended): whenever a distinct existing item (one whose id is not
the id being edited) carries the same upper-cased sku as the payload,
submit never succeeds as a create or an update and leaves the state
untouched; it fails with the duplicate-SKU message when the payload
passes validation (otherwise the validation message is shown first).
Case-insensitivity holds because stored and submitted skus are both
upper-cased. -/
theorem c3_duplicate_sku_amended (st : AppState) (f : FormFields) (fid : Str) (now : ℚ)
    (hdup : ∃ it ∈ st.items, it.sku = (getFormPayload f).sku ∧ some it.id ≠ st.editingId) :
    (handleSubmit st f fid now).1 ≠ .createdOk ∧
    (handleSubmit st f fid now).1 ≠ .updatedOk ∧
    (handleSubmit st f fid now).2 = st ∧
    (validatePayload (getFormPayload f) = [] →
      (handleSubmit st f fid now).1 = .failed msgDuplicate) := by
  have hd : isDuplicatedSku st.items (getFormPayload f).sku st.editingId = true := by
    obtain ⟨it, hmem, hsku, hid⟩ := hdup
    unfold isDuplicatedSku
    rw [List.any_eq_true]
    refine ⟨it, hmem, ?_⟩
    simp [hsku, hid]
  by_cases he : validatePayload (getFormPayload f) = []
  · refine ⟨?_, ?_, ?_, fun _ => ?_⟩ <;>
      simp [handleSubmit, he, hd]
  · refine ⟨?_, ?_, ?_, fun hcon => absurd hcon he⟩ <;>
      simp [handleSubmit, he, hd]

/-- C3 (witness): after creating "A-1", submitting the form with sku
"a-1" (upper-cased to "A-1" by the payload builder) hits the amended
duplicate theorem: it does not succeed, the state is unchanged, and
since the payload is validator-clean the message is the duplicate one. -/
theorem c3_duplicate_sku_witness :
    (handleSubmit stA1 fa1 "id-B".toList 4).1 ≠ .createdOk ∧
    (handleSubmit stA1 fa1 "id-B".toList 4).1 ≠ .updatedOk ∧
    (handleSubmit stA1 fa1 "id-B".toList 4).2 = stA1 ∧
    (validatePayload (getFormPayload fa1) = [] →
      (handleSubmit stA1 fa1 "id-B".toList 4).1 = .failed msgDuplicate) :=
  c3_duplicate_sku_amended stA1 fa1 "id-B".toList 4 (by decide)

end Inventory

namespace Inventory

/-- C4: adjustQuantity never drives the quantity negative.  For the
first item matching the id: when quantity + delta is below zero the call
is a complete no-op (the whole collection, hence also updatedAt, is
unchanged); otherwise that item's quantity becomes quantity + delta and
its updatedAt is refreshed to now. -/
theorem c4_adjust_quantity (items : List Item) (id : Str) (diff : JSNum) (now : ℚ)
    (it : Item) (hfind : items.find? (fun x => decide (x.id = id)) = some it) :
    (JSNum.lt (JSNum.add it.quantity diff) (.num 0) = true →
      adjustQuantity items id diff now = items) ∧
    (JSNum.lt (JSNum.add it.quantity diff) (.num 0) = false →
      (adjustQuantity items id diff now).find? (fun x => decide (x.id = id)) =
        some { it with quantity := JSNum.add it.quantity diff, updatedAt := .num now }) := by
  induction items with
  | nil => simp [List.find?] at hfind
  | cons it0 rest ih =>
    by_cases h0 : it0.id = id
    · have he : it = it0 := by
        rw [List.find?_cons_of_pos _ (by simp [h0])] at hfind
        exact (Option.some.inj hfind).symm
      subst he
      constructor
      · intro hlt
        simp [adjustQuantity, h0, hlt]
      · intro hge
        simp only [adjustQuantity, h0, if_true, hge, Bool.false_eq_true, if_false,
          reduceIte]
        rw [List.find?_cons_of_pos _ (by simp [h0])]
    · have hfind' : rest.find? (fun x => decide (x.id = id)) = some it := by
        rw [List.find?_cons_of_neg _ (by simp [h0])] at hfind
        exact hfind
      obtain ⟨ih1, ih2⟩ := ih hfind'
      constructor
      · intro hlt
        simp [adjustQuantity, h0, ih1 hlt]
      · intro hge
        have : adjustQuantity (it0 :: rest) id diff now
            = it0 :: adjustQuantity rest id diff now := by
          simp [adjustQuantity, h0]
        rw [this, List.find?_cons_of_neg _ (by simp [h0]), ih2 hge]

/-- C10 (frame): when the target exists and the adjusted quantity stays
non-negative, adjustQuantity rewrites exactly the first matching item,
changing only its quantity and updatedAt — every other field of that
item and every other item of the collection are untouched. -/
theorem c10_adjust_frame (items : List Item) (id : Str) (diff : JSNum) (now : ℚ)
    (it : Item) (hfind : items.find? (fun x => decide (x.id = id)) = some it)
    (hge : JSNum.lt (JSNum.add it.quantity diff) (.num 0) = false) :
    ∃ pre post, items = pre ++ it :: post ∧ (∀ x ∈ pre, x.id ≠ id) ∧
      adjustQuantity items id diff now =
        pre ++ { it with quantity := JSNum.add it.quantity diff, updatedAt := .num now } :: post ∧
      ({ it with quantity := JSNum.add it.quantity diff, updatedAt := .num now }).id = it.id ∧
      ({ it with quantity := JSNum.add it.quantity diff, updatedAt := .num now }).name = it.name ∧
      ({ it with quantity := JSNum.add it.quantity diff, updatedAt := .num now }).sku = it.sku ∧
      ({ it with quantity := JSNum.add it.quantity diff, updatedAt := .num now }).category = it.category ∧
      ({ it with quantity := JSNum.add it.quantity diff, updatedAt := .num now }).minStock = it.minStock ∧
      ({ it with quantity := JSNum.add it.quantity diff, updatedAt := .num now }).price = it.price ∧
      ({ it with quantity := JSNum.add it.quantity diff, updatedAt := .num now }).createdAt = it.createdAt := by
  induction items with
  | nil => simp [List.find?] at hfind
  | cons it0 rest ih =>
    by_cases h0 : it0.id = id
    · have he : it = it0 := by
        rw [List.find?_cons_of_pos _ (by simp [h0])] at hfind
        exact (Option.some.inj hfind).symm
      subst he
      refine ⟨[], rest, rfl, by simp, ?_, rfl, rfl, rfl, rfl, rfl, rfl, rfl⟩
      simp [adjustQuantity, h0, hge]
    · have hfind' : rest.find? (fun x => decide (x.id = id)) = some it := by
        rw [List.find?_cons_of_neg _ (by simp [h0])] at hfind
        exact hfind
      obtain ⟨pre, post, h1, h2, h3, -⟩ := ih hfind'
      refine ⟨it0 :: pre, post, by rw [h1]; rfl, ?_, ?_, rfl, rfl, rfl, rfl, rfl, rfl, rfl⟩
      · intro x hx
        rcases List.mem_cons.mp hx with hx0 | hxp
        · rw [hx0]; exact h0
        · exact h2 x hxp
      · simp [adjustQuantity, h0, h3]

end Inventory

namespace Inventory

unseal Rat.mul Rat.add Rat.sub Rat.inv in
/-- C4 (witness): adjustQuantity by -100 on the item with quantity 5 is
a complete no-op, per the main theorem applied at this concrete state. -/
theorem c4_adjust_quantity_witness :
    adjustQuantity wfItems "id-9".toList (.num (-100)) 99 = wfItems :=
  (c4_adjust_quantity wfItems "id-9".toList (.num (-100)) 99
    { id := "id-9".toList, name := "Widget".toList, sku := "WD-1".toList,
      category := "Tools".toList, quantity := .num 5, minStock := .num 10,
      price := .num 10, createdAt := .num 5, updatedAt := .num 5 }
    (by decide)).1 (by decide)

unseal Rat.mul Rat.add Rat.sub Rat.inv in
/-- C10 (witness): the frame theorem applied at a concrete one-item
collection with delta +1. -/
theorem c10_adjust_frame_witness :
    ∃ pre post, adjustQuantity wfItems "id-9".toList (.num 1) 99 =
      pre ++
        ({ id := "id-9".toList, name := "Widget".toList, sku := "WD-1".toList,
           category := "Tools".toList, quantity := JSNum.add (.num 5) (.num 1),
           minStock := .num 10, price := .num 10, createdAt := .num 5,
           updatedAt := .num 99 } : Item) :: post := by
  obtain ⟨pre, post, h1, h2, h3, h4⟩ := c10_adjust_frame wfItems "id-9".toList (.num 1) 99
    { id := "id-9".toList, name := "Widget".toList, sku := "WD-1".toList,
      category := "Tools".toList, quantity := .num 5, minStock := .num 10,
      price := .num 10, createdAt := .num 5, updatedAt := .num 5 }
    (by decide) (by decide)
  exact ⟨pre, post, h3⟩

end Inventory

namespace Inventory

/-- C5: the validator is exactly the fail-fast rule chain in the fixed
order required, then the three length rules (name, sku, category), then
numeric, then integer, then non-negative — it returns the message of the
first failing rule; and for every form whose name, sku or category
normalizes to empty, the payload built from it fails with the
required-fields message regardless of any other field. -/
theorem c5_validate_order :
    (∀ p : Payload, validatePayload p = firstFailingMsg p) ∧
    (∀ f : FormFields,
      normalizeText f.name = [] ∨ normalizeText f.sku = [] ∨
        normalizeText f.category = [] →
      validatePayload (getFormPayload f) = msgRequired) := by
  constructor
  · intro p
    unfold validatePayload firstFailingMsg validationRules
    split_ifs with h1 h2 h3 h4 h5 h6 h7 <;> simp [List.find?, *]
  · intro f hf
    have hreq : (getFormPayload f).name = [] ∨ (getFormPayload f).sku = [] ∨
        (getFormPayload f).category = [] := by
      rcases hf with h | h | h
      · exact Or.inl h
      · refine Or.inr (Or.inl ?_)
        show (normalizeText f.sku).map Char.toUpper = []
        rw [h]
        rfl
      · exact Or.inr (Or.inr h)
    unfold validatePayload
    rw [if_pos hreq]

/-- C5 (witness): a form whose name is all whitespace (empty after
normalization) is rejected with the required-fields message even though
its numeric fields are arbitrary. -/
theorem c5_validate_order_witness :
    validatePayload (getFormPayload
      { name := " ".toList, sku := "x".toList, category := "c".toList,
        quantity := "nope".toList, minStock := "1".toList, price := "2".toList })
      = msgRequired :=
  c5_validate_order.2
    { name := " ".toList, sku := "x".toList, category := "c".toList,
      quantity := "nope".toList, minStock := "1".toList, price := "2".toList }
    (Or.inl (by decide))

end Inventory

namespace Inventory

/-- C7: with empty search and status all, the query engine returns a
permutation of the whole collection that is pairwise sorted under the
locale comparison, and it is stable (any comparison-sorted subsequence
of the input survives as a subsequence, so ties keep input order); with
empty search and status low it returns exactly the items whose quantity
is at most their minStock.  The hypotheses make the comparison a total
preorder, as a locale comparison is; the embedding is a pure function,
so the input collection is never mutated. -/
theorem c7_query (cmp : Str → Str → ℤ)
    (htrans : ∀ a b c : Str, cmp a b ≤ 0 → cmp b c ≤ 0 → cmp a c ≤ 0)
    (htotal : ∀ a b : Str, cmp a b ≤ 0 ∨ cmp b a ≤ 0) (items : List Item) :
    (getFilteredItems cmp { search := [], status := .all } items).Perm items ∧
    (getFilteredItems cmp { search := [], status := .all } items).Pairwise
      (fun a b => cmp a.name b.name ≤ 0) ∧
    (∀ c : List Item, c.Sublist items →
      c.Pairwise (fun a b => cmp a.name b.name ≤ 0) →
      c.Sublist (getFilteredItems cmp { search := [], status := .all } items)) ∧
    (getFilteredItems cmp { search := [], status := .low } items).Perm
      (items.filter (fun it => JSNum.le it.quantity it.minStock)) := by
  have hAll : items.filter (matchesFilters { search := [], status := .all }) = items :=
    List.filter_eq_self.mpr (fun it _ => rfl)
  have hLow : items.filter (matchesFilters { search := [], status := .low })
      = items.filter (fun it => JSNum.le it.quantity it.minStock) := by
    apply List.filter_congr
    intro it _
    by_cases hle : JSNum.le it.quantity it.minStock = true
    · simp [matchesFilters, getItemStatus, hle]
    · rw [eq_false_of_ne_true hle]
      simp [matchesFilters, getItemStatus, eq_false_of_ne_true hle]
  have htransB : ∀ a b c : Item, decide (cmp a.name b.name ≤ 0) = true →
      decide (cmp b.name c.name ≤ 0) = true → decide (cmp a.name c.name ≤ 0) = true := by
    intro a b c hab hbc
    exact decide_eq_true (htrans _ _ _ (of_decide_eq_true hab) (of_decide_eq_true hbc))
  have htotalB : ∀ a b : Item,
      (decide (cmp a.name b.name ≤ 0) || decide (cmp b.name a.name ≤ 0)) = true := by
    intro a b
    rcases htotal a.name b.name with h | h <;> simp [h]
  refine ⟨?_, ?_, ?_, ?_⟩
  · show ((items.filter (matchesFilters { search := [], status := .all })).mergeSort
      (fun a b => cmp a.name b.name ≤ 0)).Perm items
    rw [hAll]
    exact List.mergeSort_perm items _
  · have hs := List.sorted_mergeSort htransB htotalB
      (items.filter (matchesFilters { search := [], status := .all }))
    exact hs.imp (fun h => of_decide_eq_true h)
  · intro c hsub hpair
    show c.Sublist ((items.filter (matchesFilters { search := [], status := .all })).mergeSort
      (fun a b => cmp a.name b.name ≤ 0))
    rw [hAll]
    exact List.sublist_mergeSort htransB htotalB
      (hpair.imp (fun h => decide_eq_true h)) hsub
  · show ((items.filter (matchesFilters { search := [], status := .low })).mergeSort
      (fun a b => cmp a.name b.name ≤ 0)).Perm
      (items.filter (fun it => JSNum.le it.quantity it.minStock))
    exact (List.mergeSort_perm _ _).trans (List.Perm.of_eq hLow)

/-- C7 (witness): the query theorem applied to the length comparison and
a concrete collection. -/
theorem c7_query_witness :
    (getFilteredItems lenCmp { search := [], status := .all } wfItems).Perm wfItems :=
  (c7_query lenCmp
    (fun a b c hab hbc => by
      unfold lenCmp at hab hbc ⊢
      omega)
    (fun a b => by
      unfold lenCmp
      omega) wfItems).1

end Inventory

namespace Inventory

/-- C8 (counterexample): the element stores createdAt = 0, a valid
number, yet the sanitizer replaces it with the current time 7 — the
truthiness test `Number(x) || Date.now()` discards the valid value 0. -/
theorem c8_timestamps_cex :
    toNumber (objGet c8Input keyCreatedAt) = .num 0 ∧
    (JSNum.num 0).isNaN = false ∧
    (sanitizeLoadedItems genIds 7 (.jarr [c8Input])).map Item.createdAt = [.num 7] ∧
    JSNum.num 7 ≠ .num 0 := by
  refine ⟨by decide, by decide, by decide, by decide⟩

/-- C8 (amended): for every non-nullish element, the sanitizer keeps a
source timestamp exactly when its numeric coercion is truthy (a non-NaN,
nonzero number), and substitutes the current time otherwise — so nonzero
stored numeric timestamps are preserved, while 0, NaN and non-numeric
values are replaced. -/
theorem c8_timestamps_amended (ids : ℕ → Str) (i : ℕ) (now : ℚ) (e : JValue)
    (he : notNullish e = true) :
    ((toNumber (objGet e keyCreatedAt)).truthy = true →
      (sanitizeOne ids i now e).createdAt = toNumber (objGet e keyCreatedAt)) ∧
    ((toNumber (objGet e keyCreatedAt)).truthy = false →
      (sanitizeOne ids i now e).createdAt = .num now) ∧
    ((toNumber (objGet e keyUpdatedAt)).truthy = true →
      (sanitizeOne ids i now e).updatedAt = toNumber (objGet e keyUpdatedAt)) ∧
    ((toNumber (objGet e keyUpdatedAt)).truthy = false →
      (sanitizeOne ids i now e).updatedAt = .num now) ∧
    (∀ n : JSNum, n.truthy = true ↔ n.isNaN = false ∧ n ≠ .num 0) := by
  refine ⟨?_, ?_, ?_, ?_, ?_⟩
  · intro h
    show orElseNum (toNumber (objGet e keyCreatedAt)) now = _
    unfold orElseNum
    rw [if_pos h]
  · intro h
    show orElseNum (toNumber (objGet e keyCreatedAt)) now = _
    unfold orElseNum
    rw [if_neg (by simp [h])]
  · intro h
    show orElseNum (toNumber (objGet e keyUpdatedAt)) now = _
    unfold orElseNum
    rw [if_pos h]
  · intro h
    show orElseNum (toNumber (objGet e keyUpdatedAt)) now = _
    unfold orElseNum
    rw [if_neg (by simp [h])]
  · intro n
    cases n <;> simp [JSNum.truthy, JSNum.isNaN]

/-- C8 (witness): on the concrete element the stored nonzero updatedAt 5
is preserved, per the amended theorem. -/
theorem c8_timestamps_witness :
    (sanitizeOne genIds 0 7 c8Input).updatedAt = toNumber (objGet c8Input keyUpdatedAt) :=
  (c8_timestamps_amended genIds 0 7 c8Input (by decide)).2.2.1 (by decide)

/-- C9: the aggregate data of renderStats equals the specification
contract — count is the number of items, totalUnits the sum of the
quantities, lowStockCount the number of items with quantity at most
minStock, and totalValue the sum of quantity times price; the embedding
is a pure function of the list. -/
theorem c9_aggregator (items : List Item) :
    renderStatsData items =
      (items.length, jsum (items.map Item.quantity),
        items.countP (fun it => JSNum.le it.quantity it.minStock),
        jsum (items.map (fun it => JSNum.mul it.quantity it.price))) := by
  haveI : Std.Commutative JSNum.add := ⟨jsAdd_comm⟩
  haveI : Std.Associative JSNum.add := ⟨jsAdd_assoc⟩
  unfold renderStatsData
  simp only [Prod.mk.injEq]
  refine ⟨trivial, ?_, ?_, ?_⟩
  · rw [show (fun (s : JSNum) (it : Item) => JSNum.add s it.quantity)
        = (fun s it => JSNum.add s (Item.quantity it)) from rfl,
      ← List.foldl_map Item.quantity JSNum.add items (JSNum.num 0),
      List.foldl_eq_foldr]
    rfl
  · rw [List.countP_eq_length_filter]
    congr 1
    apply List.filter_congr
    intro it _
    by_cases hle : JSNum.le it.quantity it.minStock = true
    · simp [getItemStatus, hle]
    · rw [eq_false_of_ne_true hle]
      simp [getItemStatus, eq_false_of_ne_true hle]
  · rw [← List.foldl_map (fun it => JSNum.mul it.quantity it.price) JSNum.add items
        (JSNum.num 0),
      List.foldl_eq_foldr]
    rfl

end Inventory
